import Mathlib

/-!
Verification of the dc2json2dc codec (`src/dc2json2dc/json.py`).

The development shallowly embeds the data model and the operations of the
codec:

* `Json` — the JSON value tree produced by the standard serializer and
  consumed by the standard parser (numbers restricted to integers, which is
  all the claims need).
* `Py` — the Python runtime values the codec traffics in: primitives,
  lists, tuples, sets, generators (and other non-mapping iterables),
  dicts with string keys, and dataclass instances.
* `encodePy` — `JSONDataclassEncoder.default` composed with the standard
  serializer's recursive walk.
* `object_hook` / `decodeJson` — `AbstractJSONDataclassDecoder.object_hook`
  composed with the standard parser's bottom-up object resolution.
* `build_serializable_classes_dict` — `_build_serializable_classes_dict`.

Python dicts are modelled as association lists with the exact
first-position/last-value semantics of `dict` construction, `dict.pop`
and `dict.__setitem__` (`dictGet`, `dictPop`, `dictInsert`, `dictUpdate`,
`mkDict`).  Python exceptions are modelled by `Except` together with an
error datatype recording, for each raise site, the payload of the message
and the concrete Python exception class raised there (`DecErr.pyClass`,
`RegErr.pyClass`).
-/

namespace DC2Json

/-- A dataclass field as seen through `dataclasses.fields`: its name and
its `init` flag (`init=False` fields and `InitVar`s do not participate). -/
structure Field where
  name : String
  init : Bool
deriving DecidableEq, Repr

/-- A dataclass type: its `__name__` and its ordered field list. -/
structure RecordType where
  name : String
  fields : List Field
deriving DecidableEq, Repr

/-- The participating fields: `[f for f in dataclasses.fields(cls) if f.init]`. -/
def RecordType.initFields (cls : RecordType) : List Field :=
  cls.fields.filter (·.init)

/-- A JSON value as produced by `json.dumps` / consumed by `json.loads`
(numbers restricted to integers). -/
inductive Json where
  | null
  | bool (b : Bool)
  | num (n : Int)
  | str (s : String)
  | arr (xs : List Json)
  | obj (kvs : List (String × Json))

/-- A Python runtime value relevant to the codec: JSON primitives, the
container kinds the encoder distinguishes (list, tuple, set, generator /
other non-mapping iterable, dict) and dataclass instances.  An instance
`inst cls vals` holds one value per participating field of `cls`, in
declaration order. -/
inductive Py where
  | none
  | bool (b : Bool)
  | int (n : Int)
  | str (s : String)
  | list (xs : List Py)
  | tuple (xs : List Py)
  | set (xs : List Py)
  | gen (xs : List Py)
  | dict (kvs : List (String × Py))
  | inst (cls : RecordType) (vals : List Py)

/-- Models `type(v).__name__` for the modelled Python values. -/
def Py.typeName : Py → String
  | .none => "NoneType"
  | .bool _ => "bool"
  | .int _ => "int"
  | .str _ => "str"
  | .list _ => "list"
  | .tuple _ => "tuple"
  | .set _ => "set"
  | .gen _ => "generator"
  | .dict _ => "dict"
  | .inst cls _ => cls.name

/-! ### Python `dict` as an association list -/

/-- Models `d.get(k, None)` / `k in d`: value at the first (hence only) entry for `k`. -/
def dictGet {α : Type} : List (String × α) → String → Option α
  | [], _ => Option.none
  | (k', v) :: rest, k => if k' = k then some v else dictGet rest k

/-- Models `d.pop(k, sentinel)`: remove the entry for `k`, returning its value and
the remaining dict, or `none` when the key is absent. -/
def dictPop {α : Type} : List (String × α) → String → Option (α × List (String × α))
  | [], _ => Option.none
  | (k', v) :: rest, k =>
    if k' = k then some (v, rest)
    else
      match dictPop rest k with
      | Option.none => Option.none
      | some (w, rest') => some (w, (k', v) :: rest')

/-- Models `d[k] = v`: replace the value in place if `k` is present, else append. -/
def dictInsert {α : Type} : List (String × α) → String → α → List (String × α)
  | [], k, v => [(k, v)]
  | (k', v') :: rest, k, v =>
    if k' = k then (k, v) :: rest else (k', v') :: dictInsert rest k v

/-- Models `d.update(ps)`: insert the pairs of `ps` left to right. -/
def dictUpdate {α : Type} (acc : List (String × α)) (ps : List (String × α)) :
    List (String × α) :=
  ps.foldl (fun a p => dictInsert a p.1 p.2) acc

/-- Models `dict(ps)`: build a dict from a pair list (first position, last value). -/
def mkDict {α : Type} (ps : List (String × α)) : List (String × α) :=
  dictUpdate [] ps

/-! ### Encoder: `JSONDataclassEncoder.default` under `json.dumps` -/

mutual
/-- The encoder's recursive walk.  A dataclass instance becomes
`{"__class__": name, field: value, ...}` (the dict is built exactly as in
`default`: seed `{"__class__": name}` then `update` with the participating
field pairs); tuples are serialized natively as arrays; sets, generators
and other non-mapping iterables reach `default`'s `Iterable` branch and
become arrays; dicts pass through with values encoded. -/
def encodePy : Py → Json
  | .none => .null
  | .bool b => .bool b
  | .int n => .num n
  | .str s => .str s
  | .list xs => .arr (encodeListPy xs)
  | .tuple xs => .arr (encodeListPy xs)
  | .set xs => .arr (encodeListPy xs)
  | .gen xs => .arr (encodeListPy xs)
  | .dict kvs => .obj (encodeKVsPy kvs)
  | .inst cls vals =>
      .obj (dictUpdate [("__class__", Json.str cls.name)]
        ((cls.initFields.map (·.name)).zip (encodeListPy vals)))

/-- Encode the elements of a Python list/tuple/set/generator in order. -/
def encodeListPy : List Py → List Json
  | [] => []
  | x :: xs => encodePy x :: encodeListPy xs

/-- Encode the values of a Python dict, keys passed through. -/
def encodeKVsPy : List (String × Py) → List (String × Json)
  | [] => []
  | (k, v) :: kvs => (k, encodePy v) :: encodeKVsPy kvs
end

/-! ### Decoder: `AbstractJSONDataclassDecoder` under `json.loads` -/

/-- The concrete Python exception class raised at a site. -/
inductive PyExc where
  | typeError
  | valueError
deriving DecidableEq, Repr

/-- The decode failures, one constructor per raise site of `object_hook`,
each carrying the data its message interpolates. -/
inductive DecErr where
  /-- Raised as `ValueError`, message `Invalid type for class name: expected str, found ...`. -/
  | invalidTagType (found : String)
  /-- Raised as `TypeError`, message `Class ... not registered for deserialization.`. -/
  | unregisteredType (classname : String)
  /-- Raised as `ValueError`, message `Field ... not specified for class ...`. -/
  | missingField (fieldName : String) (classname : String)
  /-- Raised as `ValueError`, message `Extraneous values specified for dataclass ...`. -/
  | extraneousFields (classname : String) (keys : List String)
  /-- Raised as `ValueError`, message `Instantiation of dataclass ... failed.`. -/
  | constructionFailed (classname : String)
deriving DecidableEq, Repr

/-- The Python exception class each decode failure is raised with. -/
def DecErr.pyClass : DecErr → PyExc
  | .invalidTagType _ => .valueError
  | .unregisteredType _ => .typeError
  | .missingField _ _ => .valueError
  | .extraneousFields _ _ => .valueError
  | .constructionFailed _ => .valueError

/-- A delegate `object_hook` passed through to the decoder.  Applying it to
a dict either returns the very same object (modelled `none`, the
`new_obj is obj` outcome) or a replacement object (modelled `some`). -/
abbrev Hook := List (String × Py) → Option Py

/-- Models the `cls(**kwargs)` argument binding: one value per participating field,
looked up by name; `none` when a field has no matching keyword. -/
def constructVals : List Field → List (String × Py) → Option (List Py)
  | [], _ => some []
  | f :: fs, kwargs =>
    match dictGet kwargs f.name with
    | some v =>
      match constructVals fs kwargs with
      | some vs => some (v :: vs)
      | Option.none => Option.none
    | Option.none => Option.none

/-- Models `cls(**kwargs)`: a dataclass `__init__` binding each participating
field by keyword. -/
def construct (cls : RecordType) (kwargs : List (String × Py)) : Option Py :=
  match constructVals cls.initFields kwargs with
  | some vs => some (.inst cls vs)
  | Option.none => Option.none

/-- The field-extraction loop of `object_hook`: for each participating
field in declaration order, `obj.pop(fld.name)` (missing → the
`missingField` error) and `kwargs[fld.name] = val`.  Returns the built
kwargs and whatever is left of `obj`. -/
def popFields (classname : String) :
    List Field → List (String × Py) → List (String × Py) →
    Except DecErr (List (String × Py) × List (String × Py))
  | [], obj, kwargs => .ok (kwargs, obj)
  | fld :: rest, obj, kwargs =>
    match dictPop obj fld.name with
    | Option.none => .error (.missingField fld.name classname)
    | some (val, obj') => popFields classname rest obj' (dictInsert kwargs fld.name val)

/-- Steps 5–7 of the resolution: extract every participating field of
`cls` from the remaining object, reject leftovers, and run `cls(**kwargs)`
(a construction failure is wrapped into the `constructionFailed` error). -/
def resolveFields (cn : String) (cls : RecordType) (obj₁ : List (String × Py)) :
    Except DecErr Py :=
  match popFields cn cls.initFields obj₁ [] with
  | .error e => .error e
  | .ok (kwargs, obj₂) =>
    match obj₂ with
    | [] =>
      match construct cls kwargs with
      | some v => .ok v
      | Option.none => .error (.constructionFailed cls.name)
    | _ :: _ => .error (.extraneousFields cn (obj₂.map (·.1)))

/-- Step 4 of the resolution: `serializable_classes.get(classname)`, absent
names rejected with the `unregisteredType` error. -/
def resolveWithClass (reg : List (String × RecordType)) (cn : String)
    (obj₁ : List (String × Py)) : Except DecErr Py :=
  match dictGet reg cn with
  | Option.none => .error (.unregisteredType cn)
  | some cls => resolveFields cn cls obj₁

/-- The tagged-object resolution of `object_hook` after the delegate step:
pop `"__class__"` (absent → return the dict unchanged), require a string
tag, then resolve the named type and its fields. -/
def resolveTagged (reg : List (String × RecordType)) (obj : List (String × Py)) :
    Except DecErr Py :=
  match dictPop obj "__class__" with
  | Option.none => .ok (.dict obj)
  | some (classname, obj₁) =>
    match classname with
    | .str cn => resolveWithClass reg cn obj₁
    | other => .error (.invalidTagType other.typeName)

/-- Models `AbstractJSONDataclassDecoder.object_hook`: delegate hook first (a
replacement is returned as-is), then tagged-object resolution. -/
def object_hook (reg : List (String × RecordType)) (hook : Option Hook)
    (obj : List (String × Py)) : Except DecErr Py :=
  match hook with
  | some h =>
    match h obj with
    | some newObj => .ok newObj
    | Option.none => resolveTagged reg obj
  | Option.none => resolveTagged reg obj

mutual
/-- Models `json.loads` with the decoder installed: the standard recursive-descent
walk over the parsed JSON tree, running `object_hook` on every object as
soon as it is complete — innermost first, each inner value resolved before
its enclosing container is assembled. -/
def decodeJson (reg : List (String × RecordType)) (hook : Option Hook) :
    Json → Except DecErr Py
  | .null => .ok .none
  | .bool b => .ok (.bool b)
  | .num n => .ok (.int n)
  | .str s => .ok (.str s)
  | .arr xs =>
    match decodeArr reg hook xs with
    | .error e => .error e
    | .ok vs => .ok (.list vs)
  | .obj kvs =>
    match decodeObj reg hook kvs with
    | .error e => .error e
    | .ok ps => object_hook reg hook (mkDict ps)

/-- Decode the elements of a JSON array, left to right, aborting on the
first failure. -/
def decodeArr (reg : List (String × RecordType)) (hook : Option Hook) :
    List Json → Except DecErr (List Py)
  | [] => .ok []
  | x :: xs =>
    match decodeJson reg hook x with
    | .error e => .error e
    | .ok v =>
      match decodeArr reg hook xs with
      | .error e => .error e
      | .ok vs => .ok (v :: vs)

/-- Decode the member values of a JSON object, left to right, aborting on
the first failure. -/
def decodeObj (reg : List (String × RecordType)) (hook : Option Hook) :
    List (String × Json) → Except DecErr (List (String × Py))
  | [] => .ok []
  | (k, x) :: kvs =>
    match decodeJson reg hook x with
    | .error e => .error e
    | .ok v =>
      match decodeObj reg hook kvs with
      | .error e => .error e
      | .ok ps => .ok ((k, v) :: ps)
end

/-! ### Registry build: `_build_serializable_classes_dict` -/

/-- The registry-build failures, with the Python exception class raised. -/
inductive RegErr where
  /-- Raised as `ValueError`, message `Duplicate name ... in class_list`. -/
  | duplicateName (name : String)
  /-- Raised as `TypeError`, message `... is not a dataclass`. -/
  | notARecordType (name : String)
deriving DecidableEq, Repr

/-- The Python exception class each registry-build failure is raised with. -/
def RegErr.pyClass : RegErr → PyExc
  | .duplicateName _ => .valueError
  | .notARecordType _ => .typeError

/-- An element of the caller-supplied `class_list`: either a dataclass
(`dataclasses.is_dataclass` holds) or any other type, of which only the
`__name__` matters. -/
inductive ClsInput where
  | record (rt : RecordType)
  | plain (name : String)
deriving DecidableEq, Repr

/-- Models `cls.__name__`. -/
def ClsInput.clsName : ClsInput → String
  | .record rt => rt.name
  | .plain n => n

/-- The loop of `_build_serializable_classes_dict`: for each class, first
the duplicate-name check against the dict built so far, then the
`is_dataclass` check, then `result[name] = cls`. -/
def buildAux : List (String × RecordType) → List ClsInput →
    Except RegErr (List (String × RecordType))
  | result, [] => .ok result
  | result, c :: rest =>
    match dictGet result c.clsName with
    | some _ => .error (.duplicateName c.clsName)
    | Option.none =>
      match c with
      | .record rt => buildAux (dictInsert result c.clsName rt) rest
      | .plain n => .error (.notARecordType n)

/-- Models `_build_serializable_classes_dict`. -/
def build_serializable_classes_dict (classList : List ClsInput) :
    Except RegErr (List (String × RecordType)) :=
  buildAux [] classList

/-! ### JSON-faithful values

The subset of Python values on which `json.loads ∘ json.dumps` under this
codec is the identity: primitives, lists and string-keyed dicts of
faithful values with no reserved `"__class__"` key, and instances of
registered, well-formed dataclass types.  Tuples, sets and generators are
excluded: the serializer flattens all of them to JSON arrays, which parse
back as lists. -/

mutual
/-- Whether a Python value survives the encode/decode round trip under
registry `reg` (no delegate hook). -/
def faithfulB (reg : List (String × RecordType)) : Py → Bool
  | .none => true
  | .bool _ => true
  | .int _ => true
  | .str _ => true
  | .list xs => faithfulListB reg xs
  | .tuple _ => false
  | .set _ => false
  | .gen _ => false
  | .dict kvs =>
      (dictGet kvs "__class__").isNone
        && decide ((kvs.map (fun p => p.1)).Nodup)
        && faithfulKVsB reg kvs
  | .inst cls vals =>
      decide (dictGet reg cls.name = some cls)
        && decide ((cls.initFields.map (fun f => f.name)).Nodup)
        && decide ("__class__" ∉ cls.initFields.map (fun f => f.name))
        && (vals.length == cls.initFields.length)
        && faithfulListB reg vals

/-- All elements faithful. -/
def faithfulListB (reg : List (String × RecordType)) : List Py → Bool
  | [] => true
  | x :: xs => faithfulB reg x && faithfulListB reg xs

/-- All dict values faithful. -/
def faithfulKVsB (reg : List (String × RecordType)) : List (String × Py) → Bool
  | [] => true
  | (_, v) :: kvs => faithfulB reg v && faithfulKVsB reg kvs
end

/-! ### Concrete fixtures used by witnesses and counterexamples -/

/-- The spec's example dataclass: `class A: id; ref` (both `init=True`). -/
def exA : RecordType := ⟨"A", [⟨"id", true⟩, ⟨"ref", true⟩]⟩

/-- A registry containing exactly `A`. -/
def exReg : List (String × RecordType) := [("A", exA)]

/-- A one-field dataclass `class P: x`. -/
def exP : RecordType := ⟨"P", [⟨"x", true⟩]⟩

/-- A registry containing exactly `P`. -/
def exRegP : List (String × RecordType) := [("P", exP)]

/-! ### Structural induction principle for `Py` -/

/-- Induction over `Py` with membership-style hypotheses for the nested
lists. -/
theorem Py.myInd (P : Py → Prop)
    (hnone : P .none) (hbool : ∀ b, P (.bool b)) (hint : ∀ n, P (.int n))
    (hstr : ∀ s, P (.str s))
    (hlist : ∀ xs, (∀ x ∈ xs, P x) → P (.list xs))
    (htuple : ∀ xs, (∀ x ∈ xs, P x) → P (.tuple xs))
    (hset : ∀ xs, (∀ x ∈ xs, P x) → P (.set xs))
    (hgen : ∀ xs, (∀ x ∈ xs, P x) → P (.gen xs))
    (hdict : ∀ kvs, (∀ kv ∈ kvs, P (Prod.snd kv)) → P (.dict kvs))
    (hinst : ∀ cls vals, (∀ x ∈ vals, P x) → P (.inst cls vals)) :
    ∀ v, P v := by
  intro v
  refine @Py.rec P (fun xs => ∀ x ∈ xs, P x) (fun kvs => ∀ kv ∈ kvs, P kv.2)
    (fun kv => P kv.2) hnone hbool hint hstr hlist htuple hset hgen hdict hinst
    ?_ ?_ ?_ ?_ ?_ v
  · simp
  · intro head tail ih ihs y hy
    rcases List.mem_cons.mp hy with h | h
    · exact h ▸ ih
    · exact ihs y h
  · simp
  · intro head tail ih ihs y hy
    rcases List.mem_cons.mp hy with h | h
    · exact h ▸ ih
    · exact ihs y h
  · intro k v ih
    exact ih

/-! ### Helper lemmas about the dict model and the encoders -/

theorem encodeListPy_eq_map (xs : List Py) : encodeListPy xs = xs.map encodePy := by
  induction xs with
  | nil => rfl
  | cons x xs ih => simp [encodeListPy, ih]

theorem encodeKVsPy_eq_map (kvs : List (String × Py)) :
    encodeKVsPy kvs = kvs.map (fun p => (p.1, encodePy p.2)) := by
  induction kvs with
  | nil => rfl
  | cons kv kvs ih =>
    obtain ⟨k, v⟩ := kv
    simp [encodeKVsPy, ih]

theorem dictGet_eq_none {α : Type} {l : List (String × α)} {k : String}
    (h : ∀ p ∈ l, p.1 ≠ k) : dictGet l k = Option.none := by
  induction l with
  | nil => rfl
  | cons p rest ih =>
    obtain ⟨k', v⟩ := p
    have hk : k' ≠ k := h (k', v) (List.mem_cons_self _ _)
    simp only [dictGet, if_neg hk]
    exact ih (fun q hq => h q (List.mem_cons_of_mem _ hq))

theorem dictPop_eq_none {α : Type} {l : List (String × α)} {k : String}
    (h : dictGet l k = Option.none) : dictPop l k = Option.none := by
  induction l with
  | nil => rfl
  | cons p rest ih =>
    obtain ⟨k', v⟩ := p
    by_cases hk : k' = k
    · simp [dictGet, hk] at h
    · simp only [dictGet, if_neg hk] at h
      simp [dictPop, if_neg hk, ih h]

theorem dictInsert_fresh {α : Type} {l : List (String × α)} {k : String} (v : α)
    (h : ∀ p ∈ l, p.1 ≠ k) : dictInsert l k v = l ++ [(k, v)] := by
  induction l with
  | nil => rfl
  | cons p rest ih =>
    obtain ⟨k', v'⟩ := p
    have hk : k' ≠ k := h (k', v') (List.mem_cons_self _ _)
    simp only [dictInsert, if_neg hk, List.cons_append, List.cons.injEq, true_and]
    exact ih (fun q hq => h q (List.mem_cons_of_mem _ hq))

theorem dictUpdate_fresh {α : Type} (ps : List (String × α)) :
    ∀ acc : List (String × α), (ps.map (·.1)).Nodup →
    (∀ p ∈ ps, ∀ q ∈ acc, q.1 ≠ p.1) → dictUpdate acc ps = acc ++ ps := by
  induction ps with
  | nil => intro acc _ _; simp [dictUpdate]
  | cons p rest ih =>
    intro acc hnodup hfresh
    obtain ⟨k, v⟩ := p
    simp only [List.map_cons, List.nodup_cons, List.mem_map] at hnodup
    have hstep : dictInsert acc k v = acc ++ [(k, v)] :=
      dictInsert_fresh v (fun q hq => hfresh (k, v) (List.mem_cons_self _ _) q hq)
    have htail : dictUpdate (acc ++ [(k, v)]) rest = (acc ++ [(k, v)]) ++ rest := by
      refine ih (acc ++ [(k, v)]) hnodup.2 ?_
      intro p hp q hq
      rcases List.mem_append.mp hq with hq | hq
      · exact hfresh p (List.mem_cons_of_mem _ hp) q hq
      · have : q = (k, v) := List.mem_singleton.mp hq
        subst this
        intro hkp
        exact hnodup.1 ⟨p, hp, hkp.symm⟩
    calc dictUpdate acc ((k, v) :: rest)
        = dictUpdate (dictInsert acc k v) rest := rfl
      _ = (acc ++ [(k, v)]) ++ rest := by rw [hstep, htail]
      _ = acc ++ (k, v) :: rest := by simp

theorem mkDict_eq_self {α : Type} {ps : List (String × α)}
    (h : (ps.map (·.1)).Nodup) : mkDict ps = ps := by
  simpa [mkDict] using dictUpdate_fresh ps [] h (by simp)

theorem dictPop_of_get_some {α : Type} {l : List (String × α)} {k : String} {v : α}
    (hn : (l.map (·.1)).Nodup) (h : dictGet l k = some v) :
    dictPop l k = some (v, l.filter (fun p => !(p.1 == k))) := by
  induction l with
  | nil => simp [dictGet] at h
  | cons p rest ih =>
    obtain ⟨k', v'⟩ := p
    simp only [List.map_cons, List.nodup_cons, List.mem_map] at hn
    by_cases hk : k' = k
    · subst hk
      rw [show dictGet ((k', v') :: rest) k' = some v' by simp [dictGet]] at h
      cases h
      have hrest : rest.filter (fun p => !(p.1 == k')) = rest := by
        refine List.filter_eq_self.mpr ?_
        intro p hp
        simp only [Bool.not_eq_true', beq_eq_false_iff_ne, ne_eq]
        intro hpk
        exact hn.1 ⟨p, hp, hpk⟩
      simp [dictPop, hrest]
    · simp only [dictGet, if_neg hk] at h
      simp [dictPop, if_neg hk, ih hn.2 h, List.filter_cons,
        show (k' == k) = false from beq_eq_false_iff_ne.mpr hk]

theorem dictPop_get_other {α : Type} :
    ∀ {l l' : List (String × α)} {k k' : String} {v : α},
    dictPop l k = some (v, l') → k' ≠ k → dictGet l' k' = dictGet l k' := by
  intro l
  induction l with
  | nil => intro l' k k' v h; simp [dictPop] at h
  | cons p rest ih =>
    intro l' k k' v h hne
    obtain ⟨k₀, v₀⟩ := p
    by_cases hk : k₀ = k
    · subst hk
      rw [show dictPop ((k₀, v₀) :: rest) k₀ = some (v₀, rest) by simp [dictPop]] at h
      simp only [Option.some.injEq, Prod.mk.injEq] at h
      obtain ⟨rfl, rfl⟩ := h
      simp only [dictGet]
      rw [if_neg (fun hc => hne hc.symm)]
    · simp only [dictPop, if_neg hk] at h
      match hrest : dictPop rest k with
      | Option.none => rw [hrest] at h; exact absurd h (by simp)
      | some (w, rest') =>
        rw [hrest] at h
        simp only [Option.some.injEq, Prod.mk.injEq] at h
        obtain ⟨rfl, rfl⟩ := h
        by_cases hkk : k₀ = k'
        · simp [dictGet, hkk]
        · simp only [dictGet, if_neg hkk]
          exact ih hrest hne

/-! ### The field-extraction loop -/

theorem popFields_aligned (cn : String) :
    ∀ (flds : List Field) (vals : List Py) (kwargs : List (String × Py)),
    ((flds.map (fun f => f.name)).Nodup) →
    vals.length = flds.length →
    (∀ q ∈ kwargs, ∀ f ∈ flds, q.1 ≠ f.name) →
    popFields cn flds ((flds.map (fun f => f.name)).zip vals) kwargs
      = .ok (kwargs ++ (flds.map (fun f => f.name)).zip vals, []) := by
  intro flds
  induction flds with
  | nil =>
    intro vals kwargs _ _ _
    simp [popFields]
  | cons f fs ih =>
    intro vals kwargs hnodup hlen hfresh
    match vals with
    | [] => simp at hlen
    | v :: vs =>
      simp only [List.map_cons, List.nodup_cons, List.mem_map] at hnodup
      have hstep : popFields cn (f :: fs)
          ((f.name, v) :: (fs.map (fun f => f.name)).zip vs) kwargs
          = popFields cn fs ((fs.map (fun f => f.name)).zip vs)
            (dictInsert kwargs f.name v) := by
        simp only [popFields]
        rw [show dictPop ((f.name, v) :: (fs.map (fun f => f.name)).zip vs) f.name
            = some (v, (fs.map (fun f => f.name)).zip vs) by simp [dictPop]]
      have hins : dictInsert kwargs f.name v = kwargs ++ [(f.name, v)] :=
        dictInsert_fresh v (fun q hq => hfresh q hq f (List.mem_cons_self _ _))
      have hfresh' : ∀ q ∈ kwargs ++ [(f.name, v)], ∀ g ∈ fs, q.1 ≠ g.name := by
        intro q hq g hg
        rcases List.mem_append.mp hq with hq | hq
        · exact hfresh q hq g (List.mem_cons_of_mem _ hg)
        · have : q = (f.name, v) := List.mem_singleton.mp hq
          subst this
          intro hc
          exact hnodup.1 ⟨g, hg, hc.symm⟩
      have hrec := ih vs (kwargs ++ [(f.name, v)]) hnodup.2 (by simpa using hlen) hfresh'
      simp only [List.map_cons, List.zip_cons_cons]
      rw [hstep, hins, hrec]
      simp

theorem constructVals_cons_ne :
    ∀ (fs : List Field) (k : String) (v : Py) (kw : List (String × Py)),
    (∀ g ∈ fs, g.name ≠ k) →
    constructVals fs ((k, v) :: kw) = constructVals fs kw := by
  intro fs
  induction fs with
  | nil => intro k v kw _; rfl
  | cons g gs ih =>
    intro k v kw h
    have hg : g.name ≠ k := h g (List.mem_cons_self _ _)
    simp only [constructVals]
    rw [show dictGet ((k, v) :: kw) g.name = dictGet kw g.name from by
      simp only [dictGet]
      rw [if_neg (fun hc => hg hc.symm)]]
    rw [ih k v kw (fun q hq => h q (List.mem_cons_of_mem _ hq))]

theorem constructVals_zip :
    ∀ (flds : List Field) (vals : List Py),
    ((flds.map (fun f => f.name)).Nodup) →
    vals.length = flds.length →
    constructVals flds ((flds.map (fun f => f.name)).zip vals) = some vals := by
  intro flds
  induction flds with
  | nil =>
    intro vals _ hlen
    match vals with
    | [] => rfl
    | _ :: _ => simp at hlen
  | cons f fs ih =>
    intro vals hnodup hlen
    match vals with
    | [] => simp at hlen
    | v :: vs =>
      simp only [List.map_cons, List.nodup_cons, List.mem_map] at hnodup
      simp only [List.map_cons, List.zip_cons_cons, constructVals]
      rw [show dictGet ((f.name, v) :: (fs.map (fun f => f.name)).zip vs) f.name = some v by
        simp [dictGet]]
      rw [constructVals_cons_ne fs f.name v _ (fun g hg hc => hnodup.1 ⟨g, hg, hc⟩)]
      rw [ih vs hnodup.2 (by simpa using hlen)]

theorem popFields_missing (cn : String) :
    ∀ (pre : List Field) (f₀ : Field) (post : List Field)
      (obj kwargs : List (String × Py)),
    (((pre ++ f₀ :: post).map (fun f => f.name)).Nodup) →
    ((obj.map (fun p => p.1)).Nodup) →
    (∀ f ∈ pre, (dictGet obj f.name).isSome) →
    dictGet obj f₀.name = Option.none →
    popFields cn (pre ++ f₀ :: post) obj kwargs
      = .error (.missingField f₀.name cn) := by
  intro pre
  induction pre with
  | nil =>
    intro f₀ post obj kwargs _ _ _ habs
    simp only [List.nil_append, popFields]
    rw [dictPop_eq_none habs]
  | cons g pre ih =>
    intro f₀ post obj kwargs hnodup hkeys hpre habs
    have hg : (dictGet obj g.name).isSome := hpre g (List.mem_cons_self _ _)
    obtain ⟨v, hv⟩ := Option.isSome_iff_exists.mp hg
    have hpop := dictPop_of_get_some hkeys hv
    simp only [List.cons_append, List.map_cons, List.nodup_cons, List.mem_map,
      List.mem_append, List.mem_cons] at hnodup
    have hstep : popFields cn ((g :: pre) ++ f₀ :: post) obj kwargs
        = popFields cn (pre ++ f₀ :: post)
          (obj.filter (fun p => !(p.1 == g.name))) (dictInsert kwargs g.name v) := by
      simp only [List.cons_append, popFields]
      rw [hpop]
      rfl
    rw [hstep]
    set obj' := obj.filter (fun p => !(p.1 == g.name)) with hobj'
    have hkeys' : (obj'.map (fun p => p.1)).Nodup :=
      List.Nodup.sublist (List.Sublist.map _ (List.filter_sublist _)) hkeys
    have hget' : ∀ k, k ≠ g.name → dictGet obj' k = dictGet obj k := by
      intro k hk
      exact dictPop_get_other hpop hk
    refine ih f₀ post obj' (dictInsert kwargs g.name v) ?_ hkeys' ?_ ?_
    · simpa using hnodup.2
    · intro f hf
      rw [hget' f.name (fun hc => hnodup.1 ⟨f, Or.inl hf, hc⟩)]
      exact hpre f (List.mem_cons_of_mem _ hf)
    · rw [hget' f₀.name (fun hc => hnodup.1 ⟨f₀, Or.inr (Or.inl rfl), hc⟩)]
      exact habs

theorem popFields_complete (cn : String) :
    ∀ (flds : List Field) (obj kwargs : List (String × Py)),
    ((flds.map (fun f => f.name)).Nodup) →
    ((obj.map (fun p => p.1)).Nodup) →
    (∀ f ∈ flds, (dictGet obj f.name).isSome) →
    ∃ kw, popFields cn flds obj kwargs
      = .ok (kw, obj.filter (fun p => !(flds.any (fun f => p.1 == f.name)))) := by
  intro flds
  induction flds with
  | nil =>
    intro obj kwargs _ _ _
    exact ⟨kwargs, by simp [popFields]⟩
  | cons f fs ih =>
    intro obj kwargs hnodup hkeys hall
    have hf : (dictGet obj f.name).isSome := hall f (List.mem_cons_self _ _)
    obtain ⟨v, hv⟩ := Option.isSome_iff_exists.mp hf
    have hpop := dictPop_of_get_some hkeys hv
    simp only [List.map_cons, List.nodup_cons, List.mem_map] at hnodup
    have hstep : popFields cn (f :: fs) obj kwargs
        = popFields cn fs (obj.filter (fun p => !(p.1 == f.name)))
          (dictInsert kwargs f.name v) := by
      simp only [popFields]
      rw [hpop]
    rw [hstep]
    set obj' := obj.filter (fun p => !(p.1 == f.name)) with hobj'
    have hkeys' : (obj'.map (fun p => p.1)).Nodup :=
      List.Nodup.sublist (List.Sublist.map _ (List.filter_sublist _)) hkeys
    have hall' : ∀ g ∈ fs, (dictGet obj' g.name).isSome := by
      intro g hg
      rw [dictPop_get_other hpop (fun hc => hnodup.1 ⟨g, hg, hc⟩)]
      exact hall g (List.mem_cons_of_mem _ hg)
    obtain ⟨kw, hkw⟩ := ih obj' (dictInsert kwargs f.name v) hnodup.2 hkeys' hall'
    refine ⟨kw, ?_⟩
    have hfil : obj'.filter (fun p => !(fs.any (fun f => p.1 == f.name)))
        = obj.filter (fun p => !((f :: fs).any (fun f => p.1 == f.name))) := by
      rw [hobj', List.filter_filter]
      refine List.filter_congr ?_
      intro p _
      simp only [List.any_cons, Bool.not_or]
      exact Bool.and_comm _ _
    rw [hkw, hfil]

/-! ### Registry build -/

theorem buildAux_append :
    ∀ (l₁ l₂ : List ClsInput) (acc : List (String × RecordType)),
    buildAux acc (l₁ ++ l₂)
      = match buildAux acc l₁ with
        | .ok r => buildAux r l₂
        | .error e => .error e := by
  intro l₁
  induction l₁ with
  | nil => intro l₂ acc; rfl
  | cons c l₁ ih =>
    intro l₂ acc
    simp only [List.cons_append, buildAux]
    match dictGet acc c.clsName with
    | some _ => rfl
    | Option.none =>
      match c with
      | .record rt => exact ih l₂ _
      | .plain n => rfl

theorem buildAux_append_ok (l₁ l₂ : List ClsInput)
    (acc : List (String × RecordType)) (r : List (String × RecordType))
    (h : buildAux acc l₁ = .ok r) :
    buildAux acc (l₁ ++ l₂) = buildAux r l₂ := by
  rw [buildAux_append l₁ l₂ acc, h]

/-! ### Stepping lemmas for the resolution pipeline -/

theorem object_hook_noHook (reg : List (String × RecordType))
    (obj : List (String × Py)) :
    object_hook reg Option.none obj = resolveTagged reg obj := rfl

theorem object_hook_passthrough (reg : List (String × RecordType)) (h : Hook)
    (obj : List (String × Py)) (hh : h obj = Option.none) :
    object_hook reg (some h) obj = resolveTagged reg obj := by
  simp only [object_hook]
  rw [hh]

theorem resolveTagged_noTag (reg : List (String × RecordType))
    {obj : List (String × Py)} (h : dictPop obj "__class__" = Option.none) :
    resolveTagged reg obj = .ok (.dict obj) := by
  simp only [resolveTagged]
  rw [h]

theorem resolveTagged_strTag (reg : List (String × RecordType))
    {obj obj₁ : List (String × Py)} {cn : String}
    (h : dictPop obj "__class__" = some (Py.str cn, obj₁)) :
    resolveTagged reg obj = resolveWithClass reg cn obj₁ := by
  simp only [resolveTagged]
  rw [h]

theorem resolveTagged_badTag (reg : List (String × RecordType))
    {obj obj₁ : List (String × Py)} {v : Py}
    (h : dictPop obj "__class__" = some (v, obj₁)) (hv : ∀ s, v ≠ Py.str s) :
    resolveTagged reg obj = .error (.invalidTagType v.typeName) := by
  simp only [resolveTagged]
  rw [h]
  cases v with
  | str s => exact absurd rfl (hv s)
  | none => rfl
  | bool b => rfl
  | int n => rfl
  | list xs => rfl
  | tuple xs => rfl
  | set xs => rfl
  | gen xs => rfl
  | dict kvs => rfl
  | inst cls vals => rfl

theorem resolveWithClass_found {reg : List (String × RecordType)} {cn : String}
    (obj₁ : List (String × Py)) {cls : RecordType} (h : dictGet reg cn = some cls) :
    resolveWithClass reg cn obj₁ = resolveFields cn cls obj₁ := by
  simp only [resolveWithClass]
  rw [h]

theorem resolveWithClass_absent {reg : List (String × RecordType)} {cn : String}
    (obj₁ : List (String × Py)) (h : dictGet reg cn = Option.none) :
    resolveWithClass reg cn obj₁ = .error (.unregisteredType cn) := by
  simp only [resolveWithClass]
  rw [h]

theorem resolveFields_err {cn : String} {cls : RecordType}
    {obj₁ : List (String × Py)} {e : DecErr}
    (h : popFields cn cls.initFields obj₁ [] = .error e) :
    resolveFields cn cls obj₁ = .error e := by
  simp only [resolveFields]
  rw [h]

theorem resolveFields_extraneous {cn : String} {cls : RecordType}
    {obj₁ kw : List (String × Py)} {p : String × Py} {rest : List (String × Py)}
    (h : popFields cn cls.initFields obj₁ [] = .ok (kw, p :: rest)) :
    resolveFields cn cls obj₁
      = .error (.extraneousFields cn ((p :: rest).map (fun q => q.1))) := by
  simp only [resolveFields]
  rw [h]

theorem resolveFields_construct {cn : String} {cls : RecordType}
    {obj₁ : List (String × Py)} (kw : List (String × Py)) {v : Py}
    (h : popFields cn cls.initFields obj₁ [] = .ok (kw, []))
    (hc : construct cls kw = some v) :
    resolveFields cn cls obj₁ = .ok v := by
  simp only [resolveFields]
  rw [h]
  show (match construct cls kw with
    | some v => Except.ok v
    | Option.none => Except.error (DecErr.constructionFailed cls.name)) = _
  rw [hc]

/-! ### Round trip on the JSON-faithful fragment -/

theorem faithfulListB_mem {reg : List (String × RecordType)} :
    ∀ {xs : List Py}, faithfulListB reg xs = true → ∀ x ∈ xs, faithfulB reg x = true := by
  intro xs
  induction xs with
  | nil => intro _ x hx; simp at hx
  | cons y ys ih =>
    intro h x hx
    simp only [faithfulListB, Bool.and_eq_true] at h
    rcases List.mem_cons.mp hx with hx | hx
    · exact hx ▸ h.1
    · exact ih h.2 x hx

theorem faithfulKVsB_mem {reg : List (String × RecordType)} :
    ∀ {kvs : List (String × Py)}, faithfulKVsB reg kvs = true →
    ∀ kv ∈ kvs, faithfulB reg kv.2 = true := by
  intro kvs
  induction kvs with
  | nil => intro _ kv hkv; simp at hkv
  | cons p ps ih =>
    intro h kv hkv
    obtain ⟨k, v⟩ := p
    simp only [faithfulKVsB, Bool.and_eq_true] at h
    rcases List.mem_cons.mp hkv with hkv | hkv
    · exact hkv ▸ h.1
    · exact ih h.2 kv hkv

theorem decodeArr_encode (reg : List (String × RecordType)) :
    ∀ xs : List Py, (∀ x ∈ xs, decodeJson reg Option.none (encodePy x) = .ok x) →
    decodeArr reg Option.none (encodeListPy xs) = .ok xs := by
  intro xs
  induction xs with
  | nil => intro _; rfl
  | cons x xs ih =>
    intro h
    simp only [encodeListPy, decodeArr]
    rw [h x (List.mem_cons_self _ _), ih (fun y hy => h y (List.mem_cons_of_mem _ hy))]

theorem decodeObj_encode (reg : List (String × RecordType)) :
    ∀ kvs : List (String × Py),
    (∀ kv ∈ kvs, decodeJson reg Option.none (encodePy kv.2) = .ok kv.2) →
    decodeObj reg Option.none (encodeKVsPy kvs) = .ok kvs := by
  intro kvs
  induction kvs with
  | nil => intro _; rfl
  | cons p ps ih =>
    intro h
    obtain ⟨k, v⟩ := p
    simp only [encodeKVsPy, decodeObj]
    rw [show decodeJson reg Option.none (encodePy v) = .ok v from
      h (k, v) (List.mem_cons_self _ _)]
    rw [ih (fun q hq => h q (List.mem_cons_of_mem _ hq))]

/-- On JSON-faithful values the codec round-trips: decoding the encoding of
`v` with no delegate hook recovers `v` exactly. -/
theorem decode_encode (reg : List (String × RecordType)) :
    ∀ v : Py, faithfulB reg v = true →
    decodeJson reg Option.none (encodePy v) = .ok v := by
  refine Py.myInd (fun v => faithfulB reg v = true →
    decodeJson reg Option.none (encodePy v) = .ok v) ?_ ?_ ?_ ?_ ?_ ?_ ?_ ?_ ?_ ?_
  · intro _; rfl
  · intro b _; rfl
  · intro n _; rfl
  · intro s _; rfl
  · -- list
    intro xs ih h
    simp only [faithfulB] at h
    have hxs : ∀ x ∈ xs, decodeJson reg Option.none (encodePy x) = .ok x :=
      fun x hx => ih x hx (faithfulListB_mem h x hx)
    simp only [encodePy, decodeJson]
    rw [decodeArr_encode reg xs hxs]
  · intro xs _ h
    simp [faithfulB] at h
  · intro xs _ h
    simp [faithfulB] at h
  · intro xs _ h
    simp [faithfulB] at h
  · -- dict
    intro kvs ih h
    simp only [faithfulB, Bool.and_eq_true, decide_eq_true_eq] at h
    obtain ⟨⟨hnone, hnodup⟩, hvals⟩ := h
    have hkvs : ∀ kv ∈ kvs, decodeJson reg Option.none (encodePy kv.2) = .ok kv.2 :=
      fun kv hkv => ih kv hkv (faithfulKVsB_mem hvals kv hkv)
    have hpop : dictPop kvs "__class__" = Option.none :=
      dictPop_eq_none (Option.isNone_iff_eq_none.mp hnone)
    simp only [encodePy, decodeJson]
    rw [decodeObj_encode reg kvs hkvs]
    show object_hook reg Option.none (mkDict kvs) = .ok (.dict kvs)
    rw [mkDict_eq_self hnodup, object_hook_noHook]
    exact resolveTagged_noTag reg hpop
  · -- instance
    intro cls vals ih h
    simp only [faithfulB, Bool.and_eq_true, decide_eq_true_eq, beq_iff_eq] at h
    obtain ⟨⟨⟨⟨hreg, hnodup⟩, hnocls⟩, hlen⟩, hvals⟩ := h
    have hlen' : vals.length = cls.initFields.length := hlen
    have hvs : ∀ x ∈ vals, decodeJson reg Option.none (encodePy x) = .ok x :=
      fun x hx => ih x hx (faithfulListB_mem hvals x hx)
    -- names of the participating fields
    set names : List String := cls.initFields.map (fun f => f.name) with hnames
    have hlen₂ : names.length = (encodeListPy vals).length := by
      rw [encodeListPy_eq_map]
      simp [hnames, hlen']
    -- the encoded object is the tag followed by the zipped field pairs
    have hfst : (names.zip (encodeListPy vals)).map Prod.fst = names :=
      List.map_fst_zip _ _ (le_of_eq hlen₂)
    have hupd : dictUpdate [("__class__", Json.str cls.name)] (names.zip (encodeListPy vals))
        = ("__class__", Json.str cls.name) :: names.zip (encodeListPy vals) := by
      have := dictUpdate_fresh (names.zip (encodeListPy vals))
        [("__class__", Json.str cls.name)] ?_ ?_
      · simpa using this
      · show ((names.zip (encodeListPy vals)).map (fun p => p.1)).Nodup
        rw [show ((names.zip (encodeListPy vals)).map (fun p => p.1)) = names from hfst]
        exact hnodup
      · intro p hp q hq
        rw [List.mem_singleton.mp hq]
        intro hc
        apply hnocls
        have hc' : "__class__" = p.1 := hc
        rw [hc']
        have : p.1 ∈ (names.zip (encodeListPy vals)).map Prod.fst :=
          List.mem_map_of_mem Prod.fst hp
        rw [hfst] at this
        exact this
    -- the zipped pairs are the encoding of the pairs of names and raw values
    have hzip : names.zip (encodeListPy vals) = encodeKVsPy (names.zip vals) := by
      rw [encodeListPy_eq_map, encodeKVsPy_eq_map, List.zip_map_right]
      refine List.map_congr_left ?_
      intro p _
      rfl
    have hobjdec : decodeObj reg Option.none
        (("__class__", Json.str cls.name) :: names.zip (encodeListPy vals))
        = .ok (("__class__", Py.str cls.name) :: names.zip vals) := by
      simp only [decodeObj, decodeJson]
      rw [hzip, decodeObj_encode reg (names.zip vals) ?_]
      intro kv hkv
      have := (List.of_mem_zip hkv).2
      exact hvs kv.2 this
    -- keys of the decoded dict are nodup, so mkDict is the identity
    have hfst₂ : (names.zip vals).map (fun p => p.1) = names := by
      have : names.length ≤ vals.length := by simp [hnames, hlen']
      exact List.map_fst_zip _ _ this
    have hnodup₂ : ((("__class__", Py.str cls.name) :: names.zip vals).map
        (fun p => p.1)).Nodup := by
      simp only [List.map_cons, List.nodup_cons, hfst₂]
      exact ⟨fun hc => hnocls (by simpa [hnames] using hc), hnodup⟩
    -- now compute the decode
    simp only [encodePy]
    rw [show (cls.initFields.map (·.name)) = names from rfl, hupd]
    simp only [decodeJson]
    rw [hobjdec]
    show object_hook reg Option.none
      (mkDict (("__class__", Py.str cls.name) :: names.zip vals)) = _
    rw [mkDict_eq_self hnodup₂, object_hook_noHook]
    rw [resolveTagged_strTag reg
      (show dictPop (("__class__", Py.str cls.name) :: names.zip vals) "__class__"
        = some (Py.str cls.name, names.zip vals) by simp [dictPop])]
    rw [resolveWithClass_found _ hreg]
    refine resolveFields_construct (names.zip vals) ?_ ?_
    · rw [hnames]
      have := popFields_aligned cls.name cls.initFields vals [] hnodup hlen' (by simp)
      simpa using this
    · simp only [construct]
      rw [hnames]
      rw [constructVals_zip cls.initFields vals hnodup hlen']

/-! ### The claims -/

/-- Claim C1 (amended): for every Record Instance of a registered dataclass
type whose participating-field values are JSON-faithful (no tuples, sets,
generators or other non-list iterables anywhere inside, no mapping holding
a reserved `"__class__"` key, every nested instance of a registered type,
and well-formed field names), decoding the JSON produced by encoding the
instance, with a registry containing its type, yields the instance back
exactly. -/
theorem claim_C1_roundtrip (reg : List (String × RecordType)) (cls : RecordType)
    (vals : List Py) (h : faithfulB reg (Py.inst cls vals) = true) :
    decodeJson reg Option.none (encodePy (Py.inst cls vals))
      = .ok (Py.inst cls vals) :=
  decode_encode reg _ h

/-- Claim C1, witness: the nested two-level instance of the spec's example
type `A` round-trips. -/
theorem claim_C1_roundtrip_witness :
    faithfulB exReg (Py.inst exA [Py.str "1", Py.inst exA [Py.str "2", Py.none]]) = true
    ∧ decodeJson exReg Option.none
        (encodePy (Py.inst exA [Py.str "1", Py.inst exA [Py.str "2", Py.none]]))
      = .ok (Py.inst exA [Py.str "1", Py.inst exA [Py.str "2", Py.none]]) :=
  ⟨rfl, claim_C1_roundtrip exReg exA [Py.str "1", Py.inst exA [Py.str "2", Py.none]] rfl⟩

/-- Claim C1, counterexample: as stated over all Record Instances the claim
fails — a participating field holding a tuple is encoded as a JSON array
and decodes back as a list, so `decode(encode(r))` differs from `r` even
though `r`'s type is registered and all fields are supplied. -/
theorem claim_C1_counterexample :
    decodeJson exRegP Option.none (encodePy (Py.inst exP [Py.tuple []]))
      = .ok (Py.inst exP [Py.list []])
    ∧ Py.inst exP [Py.list []] ≠ Py.inst exP [Py.tuple []] := by
  refine ⟨rfl, ?_⟩
  intro h
  injection h with h1 h2
  injection h2 with h3 h4
  exact Py.noConfusion h3

/-- Claim C2 (confirmed): the encoder maps a Record Instance to a JSON
object whose first key is `"__class__"` with the type's name, followed by
exactly one key per participating field, in declared order, each holding
the recursively encoded field value (and, being a function of the type and
values, the key order is deterministic per type). -/
theorem claim_C2_encode_shape (cls : RecordType) (vals : List Py)
    (hnodup : (cls.initFields.map (fun f => f.name)).Nodup)
    (hnocls : "__class__" ∉ cls.initFields.map (fun f => f.name))
    (hlen : vals.length = cls.initFields.length) :
    encodePy (Py.inst cls vals)
      = Json.obj (("__class__", Json.str cls.name)
          :: (cls.initFields.map (fun f => f.name)).zip (vals.map encodePy)) := by
  have hlen₂ : (cls.initFields.map (fun f => f.name)).length
      = (vals.map encodePy).length := by
    simp [hlen]
  have hfst : ((cls.initFields.map (fun f => f.name)).zip (vals.map encodePy)).map
      Prod.fst = cls.initFields.map (fun f => f.name) :=
    List.map_fst_zip _ _ (le_of_eq hlen₂)
  simp only [encodePy, encodeListPy_eq_map]
  have hupd := dictUpdate_fresh
    ((cls.initFields.map (fun f => f.name)).zip (vals.map encodePy))
    [("__class__", Json.str cls.name)] ?_ ?_
  · rw [show (cls.initFields.map (·.name)) = cls.initFields.map (fun f => f.name)
      from rfl]
    rw [hupd]
    simp
  · show (((cls.initFields.map (fun f => f.name)).zip (vals.map encodePy)).map
      (fun p => p.1)).Nodup
    rw [show (((cls.initFields.map (fun f => f.name)).zip (vals.map encodePy)).map
      (fun p => p.1)) = cls.initFields.map (fun f => f.name) from hfst]
    exact hnodup
  · intro p hp q hq
    rw [List.mem_singleton.mp hq]
    intro hc
    apply hnocls
    have hc' : "__class__" = p.1 := hc
    rw [hc']
    have : p.1 ∈ ((cls.initFields.map (fun f => f.name)).zip
        (vals.map encodePy)).map Prod.fst := List.mem_map_of_mem Prod.fst hp
    rw [hfst] at this
    exact this

/-- Claim C2, witness: encoding an `A` instance yields the tag first and
the two field keys in declaration order. -/
theorem claim_C2_encode_shape_witness :
    encodePy (Py.inst exA [Py.str "1", Py.none])
      = Json.obj [("__class__", Json.str "A"), ("id", Json.str "1"),
          ("ref", Json.null)] :=
  claim_C2_encode_shape exA [Py.str "1", Py.none] (by decide) (by decide) rfl

/-- Claim C3 (confirmed): decoding resolves tagged objects innermost-first:
the spec's nested example decodes to an `A` instance whose `ref` field is
itself a reconstructed `A` instance (with `ref` null), not a raw mapping. -/
theorem claim_C3_nested_resolution :
    decodeJson exReg Option.none
      (Json.obj [("__class__", Json.str "A"), ("id", Json.str "1"),
        ("ref", Json.obj [("__class__", Json.str "A"), ("id", Json.str "2"),
          ("ref", Json.null)])])
      = .ok (Py.inst exA [Py.str "1", Py.inst exA [Py.str "2", Py.none]]) :=
  rfl

/-- Claim C4 (confirmed): on a tagged object of a registered type, if the
participating fields split as `pre ++ f₀ :: post` with every field of
`pre` present and `f₀`'s key absent, decode fails with the missing-field
error naming `f₀` — fields are checked in declaration order and the error
fires before any extraneous-key check (the object may hold arbitrary
additional keys). -/
theorem claim_C4_missing_field (reg : List (String × RecordType))
    (obj obj₁ : List (String × Py)) (cn : String) (cls : RecordType)
    (pre post : List Field) (f₀ : Field)
    (hpop : dictPop obj "__class__" = some (Py.str cn, obj₁))
    (hreg : dictGet reg cn = some cls)
    (hflds : cls.initFields = pre ++ f₀ :: post)
    (hnodup : (cls.initFields.map (fun f => f.name)).Nodup)
    (hkeys : (obj₁.map (fun p => p.1)).Nodup)
    (hpre : ∀ f ∈ pre, (dictGet obj₁ f.name).isSome)
    (habs : dictGet obj₁ f₀.name = Option.none) :
    object_hook reg Option.none obj = .error (.missingField f₀.name cn) := by
  rw [object_hook_noHook, resolveTagged_strTag reg hpop, resolveWithClass_found _ hreg]
  refine resolveFields_err ?_
  rw [hflds]
  rw [hflds] at hnodup
  exact popFields_missing cn pre f₀ post obj₁ [] hnodup hkeys hpre habs

/-- Claim C4, witness: an `A` object lacking `"ref"` fails naming `ref`,
even though an extraneous `"junk"` key is also present. -/
theorem claim_C4_missing_field_witness :
    object_hook exReg Option.none
      [("__class__", Py.str "A"), ("id", Py.str "1"), ("junk", Py.none)]
      = .error (.missingField "ref" "A") :=
  claim_C4_missing_field exReg
    [("__class__", Py.str "A"), ("id", Py.str "1"), ("junk", Py.none)]
    [("id", Py.str "1"), ("junk", Py.none)] "A" exA
    [⟨"id", true⟩] [] ⟨"ref", true⟩
    rfl rfl rfl (by decide) (by decide) (by decide) rfl

/-- Claim C5 (confirmed): on a tagged object of a registered type with
every participating field present, any keys left over after the tag and
all fields are consumed make decode fail with the extraneous-fields error
listing every leftover key. -/
theorem claim_C5_extraneous (reg : List (String × RecordType))
    (obj obj₁ : List (String × Py)) (cn : String) (cls : RecordType)
    (hpop : dictPop obj "__class__" = some (Py.str cn, obj₁))
    (hreg : dictGet reg cn = some cls)
    (hnodup : (cls.initFields.map (fun f => f.name)).Nodup)
    (hkeys : (obj₁.map (fun p => p.1)).Nodup)
    (hall : ∀ f ∈ cls.initFields, (dictGet obj₁ f.name).isSome)
    (hleft : obj₁.filter
      (fun p => !(cls.initFields.any (fun f => p.1 == f.name))) ≠ []) :
    object_hook reg Option.none obj
      = .error (.extraneousFields cn
          ((obj₁.filter (fun p => !(cls.initFields.any (fun f => p.1 == f.name)))).map
            (fun p => p.1))) := by
  rw [object_hook_noHook, resolveTagged_strTag reg hpop, resolveWithClass_found _ hreg]
  obtain ⟨kw, hkw⟩ := popFields_complete cn cls.initFields obj₁ [] hnodup hkeys hall
  match hrest : obj₁.filter
      (fun p => !(cls.initFields.any (fun f => p.1 == f.name))) with
  | [] => exact absurd hrest hleft
  | p :: rest =>
    rw [hrest] at hkw
    rw [resolveFields_extraneous hkw, hrest]

/-- Claim C5, witness: a `P` object with both `"a"` and `"b"` left over
fails listing both keys. -/
theorem claim_C5_extraneous_witness :
    object_hook exRegP Option.none
      [("__class__", Py.str "P"), ("x", Py.int 1), ("a", Py.none), ("b", Py.none)]
      = .error (.extraneousFields "P" ["a", "b"]) :=
  claim_C5_extraneous exRegP
    [("__class__", Py.str "P"), ("x", Py.int 1), ("a", Py.none), ("b", Py.none)]
    [("x", Py.int 1), ("a", Py.none), ("b", Py.none)] "P" exP
    rfl rfl (by decide) (by decide) (by decide)
    (fun hc => List.noConfusion
      (show ([("a", Py.none), ("b", Py.none)] : List (String × Py)) = [] from hc))

/-- Claim C6 (amended): a JSON object whose `"__class__"` key holds a
non-string value makes decode fail with the invalid-tag-type error naming
the found type — raised as a Python `ValueError`, not a `TypeError` — and
the whole decode call aborts. -/
theorem claim_C6_nonstring_tag (reg : List (String × RecordType))
    (obj obj₁ : List (String × Py)) (v : Py)
    (hpop : dictPop obj "__class__" = some (v, obj₁))
    (hv : ∀ s, v ≠ Py.str s) :
    object_hook reg Option.none obj = .error (.invalidTagType v.typeName)
    ∧ (DecErr.invalidTagType v.typeName).pyClass = PyExc.valueError := by
  refine ⟨?_, rfl⟩
  rw [object_hook_noHook]
  exact resolveTagged_badTag reg hpop hv

/-- Claim C6, witness: `{"__class__": 3}` fails with the invalid-tag-type
error, whose Python class is `ValueError`. -/
theorem claim_C6_nonstring_tag_witness :
    object_hook [] Option.none [("__class__", Py.int 3)]
      = .error (.invalidTagType "int")
    ∧ (DecErr.invalidTagType "int").pyClass = PyExc.valueError :=
  claim_C6_nonstring_tag [] [("__class__", Py.int 3)] [] (Py.int 3)
    rfl (fun _ h => Py.noConfusion h)

/-- Claim C6, counterexample: the claim says decode fails with `TypeError`,
but the code raises `ValueError` at that site — the full decode of
`{"__class__": 3}` fails with an error whose Python class is not
`TypeError`. -/
theorem claim_C6_counterexample :
    decodeJson [] Option.none (Json.obj [("__class__", Json.num 3)])
      = .error (.invalidTagType "int")
    ∧ (DecErr.invalidTagType "int").pyClass ≠ PyExc.typeError :=
  ⟨rfl, by decide⟩

/-- Claim C7 (confirmed): a JSON object whose string tag names a type
absent from the registry makes decode fail with the unregistered-type
error, and the whole decode call aborts. -/
theorem claim_C7_unregistered (reg : List (String × RecordType))
    (obj obj₁ : List (String × Py)) (cn : String)
    (hpop : dictPop obj "__class__" = some (Py.str cn, obj₁))
    (habs : dictGet reg cn = Option.none) :
    object_hook reg Option.none obj = .error (.unregisteredType cn) := by
  rw [object_hook_noHook, resolveTagged_strTag reg hpop]
  exact resolveWithClass_absent _ habs

/-- Claim C7, witness: decoding a `"B"`-tagged object against an empty
registry fails with the unregistered-type error. -/
theorem claim_C7_unregistered_witness :
    object_hook [] Option.none [("__class__", Py.str "B")]
      = .error (.unregisteredType "B") :=
  claim_C7_unregistered [] [("__class__", Py.str "B")] [] "B" rfl rfl

/-- Claim C8 (confirmed): when a delegate hook is configured and returns a
replacement for a parsed object, that replacement is the decode result
as-is and every remaining resolution step is skipped — whatever the
object holds, including a `"__class__"` key. -/
theorem claim_C8_delegate_priority (reg : List (String × RecordType))
    (h : Hook) (obj : List (String × Py)) (v : Py) (hh : h obj = some v) :
    object_hook reg (some h) obj = .ok v := by
  simp only [object_hook]
  rw [hh]

/-- Claim C8, witness: a hook replacing every object makes a tagged object
with an unregistered name decode to the replacement instead of failing. -/
theorem claim_C8_delegate_priority_witness :
    object_hook [] (some (fun _ => some (Py.str "replaced")))
      [("__class__", Py.str "Unregistered")] = .ok (Py.str "replaced") :=
  claim_C8_delegate_priority [] (fun _ => some (Py.str "replaced"))
    [("__class__", Py.str "Unregistered")] (Py.str "replaced") rfl

/-- Claim C9 (confirmed): the registry build checks each class's name for
duplication before checking that it is a dataclass, so a non-dataclass
whose name duplicates an earlier successfully registered entry fails with
the duplicate-name error, while a non-dataclass with a fresh name fails
with the not-a-dataclass error at its first occurrence. -/
theorem claim_C9_build_order (l₁ : List ClsInput) (reg : List (String × RecordType))
    (n : String) (rest : List ClsInput)
    (hok : build_serializable_classes_dict l₁ = .ok reg) :
    ((dictGet reg n).isSome →
      build_serializable_classes_dict (l₁ ++ ClsInput.plain n :: rest)
        = .error (.duplicateName n))
    ∧ ((dictGet reg n).isSome = false →
      build_serializable_classes_dict (l₁ ++ ClsInput.plain n :: rest)
        = .error (.notARecordType n)) := by
  have happ : buildAux [] (l₁ ++ ClsInput.plain n :: rest)
      = buildAux reg (ClsInput.plain n :: rest) :=
    buildAux_append_ok l₁ (ClsInput.plain n :: rest) [] reg hok
  constructor
  · intro hdup
    obtain ⟨rt, hrt⟩ := Option.isSome_iff_exists.mp hdup
    rw [show build_serializable_classes_dict (l₁ ++ ClsInput.plain n :: rest)
      = buildAux reg (ClsInput.plain n :: rest) from happ]
    simp only [buildAux, ClsInput.clsName]
    rw [hrt]
  · intro hfresh
    have hnone : dictGet reg n = Option.none := by
      cases hgn : dictGet reg n with
      | none => rfl
      | some rt => rw [hgn] at hfresh; simp at hfresh
    rw [show build_serializable_classes_dict (l₁ ++ ClsInput.plain n :: rest)
      = buildAux reg (ClsInput.plain n :: rest) from happ]
    simp only [buildAux, ClsInput.clsName]
    rw [hnone]

/-- Claim C9, witness: after registering `A`, a non-dataclass named `"A"`
fails with the duplicate-name error, and a non-dataclass named `"B"`
fails with the not-a-dataclass error. -/
theorem claim_C9_build_order_witness :
    build_serializable_classes_dict [ClsInput.record exA, ClsInput.plain "A"]
      = .error (.duplicateName "A")
    ∧ build_serializable_classes_dict [ClsInput.record exA, ClsInput.plain "B"]
      = .error (.notARecordType "B") :=
  ⟨(claim_C9_build_order [ClsInput.record exA] [("A", exA)] "A" [] rfl).1 rfl,
   (claim_C9_build_order [ClsInput.record exA] [("A", exA)] "B" [] rfl).2 rfl⟩

/-- Claim C10 (confirmed): the encoder turns sets, generators and other
non-mapping iterables the serializer cannot handle natively into JSON
arrays of their recursively encoded elements; such an array decodes back
to a list, so the original container kind is not preserved. -/
theorem claim_C10_iterables (reg : List (String × RecordType)) (xs : List Py)
    (h : faithfulB reg (Py.list xs) = true) :
    encodePy (Py.set xs) = Json.arr (xs.map encodePy)
    ∧ encodePy (Py.gen xs) = Json.arr (xs.map encodePy)
    ∧ decodeJson reg Option.none (encodePy (Py.set xs)) = .ok (Py.list xs)
    ∧ decodeJson reg Option.none (encodePy (Py.gen xs)) = .ok (Py.list xs)
    ∧ Py.list xs ≠ Py.set xs
    ∧ Py.list xs ≠ Py.gen xs := by
  have hxs : ∀ x ∈ xs, decodeJson reg Option.none (encodePy x) = .ok x :=
    fun x hx => decode_encode reg x
      (faithfulListB_mem (show faithfulListB reg xs = true from h) x hx)
  have hdec : decodeArr reg Option.none (encodeListPy xs) = .ok xs :=
    decodeArr_encode reg xs hxs
  refine ⟨?_, ?_, ?_, ?_, ?_, ?_⟩
  · simp [encodePy, encodeListPy_eq_map]
  · simp [encodePy, encodeListPy_eq_map]
  · simp only [encodePy, decodeJson]
    rw [hdec]
  · simp only [encodePy, decodeJson]
    rw [hdec]
  · exact fun hc => Py.noConfusion hc
  · exact fun hc => Py.noConfusion hc

/-- Claim C10, witness: the one-element set and generator of `1` encode to
the array `[1]` and decode back to the list `[1]`. -/
theorem claim_C10_iterables_witness :
    encodePy (Py.set [Py.int 1]) = Json.arr [Json.num 1]
    ∧ decodeJson [] Option.none (encodePy (Py.set [Py.int 1]))
      = .ok (Py.list [Py.int 1])
    ∧ Py.list [Py.int 1] ≠ Py.set [Py.int 1] := by
  have h := claim_C10_iterables [] [Py.int 1] rfl
  exact ⟨h.1, h.2.2.1, h.2.2.2.2.1⟩

end DC2Json
